import Mathlib

/-! pgdfailwrap: the failover wrapper driver.

A shallow embedding of `driver.go` (package `pgdfailwrap`) and the properties of
`Driver.Open` / `Driver.tryOpen`.

The package talks to three collaborators: the `database/sql` package
(`sql.Open`, `db.Query`, `rows.Next`, `rows.Err`, `rows.Scan`, `rows.Close`,
`db.Close`), the delegate `driver.Driver` and `strings.Split`.  The first two are
arbitrary state-passing functions over a state `σ` (so that a collaborator may answer
differently on every call); every call the Go code makes is also appended to a ghost
trace, tagged with the candidate under evaluation, so that the order and the number of
the calls can be stated.
-/

namespace Pgdfailwrap

/-! ## Data model -/

/-- A Go `error` value, identified by its message; the `nil` error is `none : Option GoError`. -/
structure GoError where
  msg : String
deriving DecidableEq, Repr

/-- Go's `(driver.Conn, error)` result pair; either component may be `nil`. -/
abbrev ConnResult (C : Type) := Option C × Option GoError

/-- The calls `driver.go` makes on its collaborators (`D` is `*sql.DB`, `R` is `*sql.Rows`). -/
inductive Op (D R : Type) where
  | sqlOpen (driverName dataSourceName : String)
  | dbQuery (db : D) (query : String)
  | rowsNext (rows : R)
  | rowsErr (rows : R)
  | rowsScan (rows : R)
  | rowsClose (rows : R)
  | dbClose (db : D)
  | delegateOpen (name : String)
deriving DecidableEq, Repr

/-- One entry of the ghost trace: a call, tagged with the candidate being evaluated. -/
structure Event (D R : Type) where
  cand : String
  op : Op D R
deriving DecidableEq, Repr

/-- The `database/sql` package as `driver.go` uses it, over a state `σ` that holds
whatever the package and the servers behind it remember (the driver registry included). -/
structure Host (σ D R : Type) where
  sqlOpen : String → String → σ → Except GoError D × σ
  dbQuery : D → String → σ → Except GoError R × σ
  dbClose : D → σ → σ
  rowsNext : R → σ → Bool × σ
  rowsErr : R → σ → Option GoError × σ
  rowsScan : R → σ → Except GoError String × σ
  rowsClose : R → σ → σ

/-- The interface `driver.Driver`: its one method `Open(name string) (Conn, error)`. -/
structure DriverIface (σ C : Type) where
  Open : String → σ → ConnResult C × σ

/-- The Go struct `type Driver struct { delegate driver.Driver }`. -/
structure Driver (σ C : Type) where
  delegate : DriverIface σ C

/-- The collaborators' state together with the ghost trace of the calls made so far. -/
structure World (σ D R : Type) where
  st : σ
  trace : List (Event D R)

variable {σ C D R : Type}

/-- Append one call to the ghost trace and install the collaborators' new state. -/
def World.step (w : World σ D R) (st : σ) (cand : String) (op : Op D R) : World σ D R :=
  { st := st, trace := w.trace ++ [{ cand := cand, op := op }] }

/-- The trace entries added between world `w` and a later world `w1`. -/
def emitted (w w1 : World σ D R) : List (Event D R) :=
  w1.trace.drop w.trace.length

/-! ## The traced collaborator calls -/

/-- The call `sql.Open(driverName, dsn)`. -/
def sqlOpen (h : Host σ D R) (cand driverName dsn : String) (w : World σ D R) :
    Except GoError D × World σ D R :=
  ((h.sqlOpen driverName dsn w.st).1,
    w.step (h.sqlOpen driverName dsn w.st).2 cand (.sqlOpen driverName dsn))

/-- The call `db.Query(query)`. -/
def dbQuery (h : Host σ D R) (cand : String) (db : D) (query : String) (w : World σ D R) :
    Except GoError R × World σ D R :=
  ((h.dbQuery db query w.st).1, w.step (h.dbQuery db query w.st).2 cand (.dbQuery db query))

/-- The call `db.Close()`; the error it returns is dropped by every caller in `driver.go`. -/
def dbClose (h : Host σ D R) (cand : String) (db : D) (w : World σ D R) : World σ D R :=
  w.step (h.dbClose db w.st) cand (.dbClose db)

/-- The call `rows.Next()`. -/
def rowsNext (h : Host σ D R) (cand : String) (rows : R) (w : World σ D R) :
    Bool × World σ D R :=
  ((h.rowsNext rows w.st).1, w.step (h.rowsNext rows w.st).2 cand (.rowsNext rows))

/-- The call `rows.Err()`. -/
def rowsErr (h : Host σ D R) (cand : String) (rows : R) (w : World σ D R) :
    Option GoError × World σ D R :=
  ((h.rowsErr rows w.st).1, w.step (h.rowsErr rows w.st).2 cand (.rowsErr rows))

/-- The call `rows.Scan(&readonlyIndicator)`: the error, or the decoded string. -/
def rowsScan (h : Host σ D R) (cand : String) (rows : R) (w : World σ D R) :
    Except GoError String × World σ D R :=
  ((h.rowsScan rows w.st).1, w.step (h.rowsScan rows w.st).2 cand (.rowsScan rows))

/-- The call `rows.Close()`; its error is dropped (it is only ever deferred). -/
def rowsClose (h : Host σ D R) (cand : String) (rows : R) (w : World σ D R) : World σ D R :=
  w.step (h.rowsClose rows w.st) cand (.rowsClose rows)

/-- The call `d.delegate.Open(name)`. -/
def delegateOpen (d : Driver σ C) (cand name : String) (w : World σ D R) :
    ConnResult C × World σ D R :=
  ((d.delegate.Open name w.st).1, w.step (d.delegate.Open name w.st).2 cand (.delegateOpen name))

/-! ## `strings.Split` and `strings.Join` for a one-character separator -/

/-- Cut a character sequence at every occurrence of `sep`: the segment up to the first
`sep`, then the split of what follows it; a sequence without `sep` is its own only segment. -/
def splitChars (sep : Char) : List Char → List (List Char)
  | [] => [[]]
  | c :: cs =>
    if c = sep then [] :: splitChars sep cs
    else
      match splitChars sep cs with
      | [] => [[c]]
      | seg :: segs => (c :: seg) :: segs

/-- Go's `strings.Split(s, sep)` for a separator of one character.  Go cuts the byte
string; the byte of an ASCII separator occurs in valid UTF-8 only as that character, so
cutting the character sequence gives the same segments. -/
def stringsSplit (s : String) (sep : Char) : List String :=
  (splitChars sep s.data).map String.mk

/-- Concatenate segments with `sep` between consecutive ones. -/
def joinChars (sep : Char) : List (List Char) → List Char
  | [] => []
  | [a] => a
  | a :: b :: rest => a ++ sep :: joinChars sep (b :: rest)

/-- Go's `strings.Join(elems, sep)` for a separator of one character. -/
def stringsJoin (elems : List String) (sep : Char) : String :=
  String.mk (joinChars sep (elems.map String.data))

/-! ## `driver.go` -/

/-- The name under which `InitDriver` registers the wrapper. -/
def registeredName : String := "postgres-with-failover"

/-- `InitDriver(delegate)`: the arguments of its one statement,
`sql.Register("postgres-with-failover", &Driver{delegate: delegate})`. -/
def InitDriver (delegate : DriverIface σ C) : String × Driver σ C :=
  (registeredName, { delegate := delegate })

/-- `func (d *Driver) tryOpen(pqConnStr string) (driver.Conn, error)`.
The deferred `db.Close()` and `rows.Close()` run, last registered first, after the
operands of the `return` have been evaluated. -/
def Driver.tryOpen (h : Host σ D R) (d : Driver σ C) (pqConnStr : String) (w : World σ D R) :
    ConnResult C × World σ D R :=
  -- db, err := sql.Open("postgres", pqConnStr)
  match sqlOpen h pqConnStr "postgres" pqConnStr w with
  | (.error err, w1) => ((none, some err), w1)            -- if err != nil { return nil, err }
  | (.ok db, w1) =>                                        -- defer db.Close()
    -- rows, err := db.Query("SHOW transaction_read_only")
    match dbQuery h pqConnStr db "SHOW transaction_read_only" w1 with
    | (.error err, w2) =>                                  -- if err != nil { return nil, err }
      ((none, some err), dbClose h pqConnStr db w2)
    | (.ok rows, w2) =>                                    -- defer rows.Close()
      match rowsNext h pqConnStr rows w2 with
      | (false, w3) =>                                     -- if !rows.Next() { return nil, rows.Err() }
        ((none, (rowsErr h pqConnStr rows w3).1),
          dbClose h pqConnStr db (rowsClose h pqConnStr rows (rowsErr h pqConnStr rows w3).2))
      | (true, w3) =>
        -- err = rows.Scan(&readonlyIndicator)
        match rowsScan h pqConnStr rows w3 with
        | (.error err, w4) =>                              -- if err != nil { return nil, err }
          ((none, some err), dbClose h pqConnStr db (rowsClose h pqConnStr rows w4))
        | (.ok readonlyIndicator, w4) =>
          if readonlyIndicator = "on" then
            -- return nil, fmt.Errorf("database in readonly mode")
            ((none, some { msg := "database in readonly mode" }),
              dbClose h pqConnStr db (rowsClose h pqConnStr rows w4))
          else
            -- db.Close(); return d.delegate.Open(pqConnStr)
            ((delegateOpen d pqConnStr pqConnStr (dbClose h pqConnStr db w4)).1,
              dbClose h pqConnStr db (rowsClose h pqConnStr rows
                (delegateOpen d pqConnStr pqConnStr (dbClose h pqConnStr db w4)).2))

/-- The loop `for _, s := range c { con, err = d.tryOpen(s); if err == nil { return con, nil } }`
followed by `return nil, err`, with the variable `err` as an argument. -/
def Driver.openLoop (h : Host σ D R) (d : Driver σ C) :
    List String → Option GoError → World σ D R → ConnResult C × World σ D R
  | [], err, w => ((none, err), w)
  | s :: rest, _, w =>
    match (d.tryOpen h s w).1.2 with
    | none => (((d.tryOpen h s w).1.1, none), (d.tryOpen h s w).2)
    | some err => Driver.openLoop h d rest (some err) (d.tryOpen h s w).2

/-- `func (d *Driver) Open(connStr string) (driver.Conn, error)`. -/
def Driver.Open (h : Host σ D R) (d : Driver σ C) (connStr : String) (w : World σ D R) :
    ConnResult C × World σ D R :=
  Driver.openLoop h d (stringsSplit connStr ',') none w

/-! ## Vocabulary for the hypotheses: what a candidate's probe does -/

/-- What the collaborators answer when a candidate is probed, up to the first answer that
decides the path `tryOpen` takes; `st` is their state right after that answer. -/
inductive ProbeOutcome (σ D R : Type) where
  | openFailed (err : GoError) (st : σ)
  | queryFailed (db : D) (err : GoError) (st : σ)
  | noRows (db : D) (rows : R) (err : Option GoError) (st : σ)
  | scanFailed (db : D) (rows : R) (err : GoError) (st : σ)
  | row (db : D) (rows : R) (v : String) (st : σ)

/-- The answers of `sql.Open("postgres", s)`, `db.Query`, `rows.Next`, and `rows.Err` or
`rows.Scan`, asked in this order from state `st`. -/
def probe (h : Host σ D R) (s : String) (st : σ) : ProbeOutcome σ D R :=
  match (h.sqlOpen "postgres" s st).1 with
  | .error err => .openFailed err (h.sqlOpen "postgres" s st).2
  | .ok db =>
    match (h.dbQuery db "SHOW transaction_read_only" (h.sqlOpen "postgres" s st).2).1 with
    | .error err =>
      .queryFailed db err (h.dbQuery db "SHOW transaction_read_only" (h.sqlOpen "postgres" s st).2).2
    | .ok rows =>
      match (h.rowsNext rows
          (h.dbQuery db "SHOW transaction_read_only" (h.sqlOpen "postgres" s st).2).2).1 with
      | false =>
        .noRows db rows
          (h.rowsErr rows (h.rowsNext rows
            (h.dbQuery db "SHOW transaction_read_only" (h.sqlOpen "postgres" s st).2).2).2).1
          (h.rowsErr rows (h.rowsNext rows
            (h.dbQuery db "SHOW transaction_read_only" (h.sqlOpen "postgres" s st).2).2).2).2
      | true =>
        match (h.rowsScan rows (h.rowsNext rows
            (h.dbQuery db "SHOW transaction_read_only" (h.sqlOpen "postgres" s st).2).2).2).1 with
        | .error err =>
          .scanFailed db rows err (h.rowsScan rows (h.rowsNext rows
            (h.dbQuery db "SHOW transaction_read_only" (h.sqlOpen "postgres" s st).2).2).2).2
        | .ok v =>
          .row db rows v (h.rowsScan rows (h.rowsNext rows
            (h.dbQuery db "SHOW transaction_read_only" (h.sqlOpen "postgres" s st).2).2).2).2

/-- Tag a sequence of calls with the candidate they were made for. -/
def tagged (s : String) (ops : List (Op D R)) : List (Event D R) :=
  ops.map fun op => { cand := s, op := op }

/-- The readiness query of `tryOpen`. -/
def readinessQuery : String := "SHOW transaction_read_only"

/-- The error `fmt.Errorf("database in readonly mode")`. -/
def readonlyError : GoError := { msg := "database in readonly mode" }

/-- The result and final world of `tryOpen` as a function of the probe's outcome. -/
def finish (h : Host σ D R) (d : Driver σ C) (s : String) (w : World σ D R) :
    ProbeOutcome σ D R → ConnResult C × World σ D R
  | .openFailed err st =>
    ((none, some err), { st := st, trace := w.trace ++ tagged s [.sqlOpen "postgres" s] })
  | .queryFailed db err st =>
    ((none, some err),
      { st := h.dbClose db st,
        trace := w.trace ++ tagged s [.sqlOpen "postgres" s, .dbQuery db readinessQuery,
          .dbClose db] })
  | .noRows db rows err st =>
    ((none, err),
      { st := h.dbClose db (h.rowsClose rows st),
        trace := w.trace ++ tagged s [.sqlOpen "postgres" s, .dbQuery db readinessQuery,
          .rowsNext rows, .rowsErr rows, .rowsClose rows, .dbClose db] })
  | .scanFailed db rows err st =>
    ((none, some err),
      { st := h.dbClose db (h.rowsClose rows st),
        trace := w.trace ++ tagged s [.sqlOpen "postgres" s, .dbQuery db readinessQuery,
          .rowsNext rows, .rowsScan rows, .rowsClose rows, .dbClose db] })
  | .row db rows v st =>
    if v = "on" then
      ((none, some readonlyError),
        { st := h.dbClose db (h.rowsClose rows st),
          trace := w.trace ++ tagged s [.sqlOpen "postgres" s, .dbQuery db readinessQuery,
            .rowsNext rows, .rowsScan rows, .rowsClose rows, .dbClose db] })
    else
      ((d.delegate.Open s (h.dbClose db st)).1,
        { st := h.dbClose db (h.rowsClose rows (d.delegate.Open s (h.dbClose db st)).2),
          trace := w.trace ++ tagged s [.sqlOpen "postgres" s, .dbQuery db readinessQuery,
            .rowsNext rows, .rowsScan rows, .dbClose db, .delegateOpen s, .rowsClose rows,
            .dbClose db] })

/-! ## Vocabulary for the hypotheses: sequences of candidates -/

/-- The world reached when `tryOpen` has been run on each candidate of a list in turn. -/
def runAll (h : Host σ D R) (d : Driver σ C) : List String → World σ D R → World σ D R
  | [], w => w
  | s :: rest, w => runAll h d rest (d.tryOpen h s w).2

/-- Every candidate of the list, evaluated in turn from `w`, has `tryOpen` return a
non-nil error. -/
def allFail (h : Host σ D R) (d : Driver σ C) : List String → World σ D R → Bool
  | [], _ => true
  | s :: rest, w => (d.tryOpen h s w).1.2.isSome && allFail h d rest (d.tryOpen h s w).2

/-- The probe outcomes that eliminate a candidate before any live connection is tried:
the probe open fails, the readiness query fails, the row cannot be decoded, or the row
reports read-only. -/
def ProbeOutcome.eliminates : ProbeOutcome σ D R → Bool
  | .openFailed _ _ => true
  | .queryFailed _ _ _ => true
  | .scanFailed _ _ _ _ => true
  | .row _ _ v _ => decide (v = "on")
  | .noRows _ _ _ _ => false

/-- Every candidate of the list, evaluated in turn from `w`, is eliminated by its probe. -/
def allEliminated (h : Host σ D R) (d : Driver σ C) : List String → World σ D R → Bool
  | [], _ => true
  | s :: rest, w =>
    (probe h s w.st).eliminates && allEliminated h d rest (d.tryOpen h s w).2

/-- Number of trace entries that are a `sql.Open` call. -/
def countSqlOpen (t : List (Event D R)) : Nat :=
  t.countP fun e => match e.op with
    | .sqlOpen _ _ => true
    | _ => false

/-- Number of trace entries that are a `db.Close()` call. -/
def countDbClose (t : List (Event D R)) : Nat :=
  t.countP fun e => match e.op with
    | .dbClose _ => true
    | _ => false

/-- Number of trace entries that are a call of the delegate's `Open`. -/
def countDelegateOpen (t : List (Event D R)) : Nat :=
  t.countP fun e => match e.op with
    | .delegateOpen _ => true
    | _ => false

/-- The data source names of the `sql.Open` calls of a trace, in order: the candidates
for which a probe was started. -/
def probed (t : List (Event D R)) : List String :=
  t.filterMap fun e => match e.op with
    | .sqlOpen _ dsn => some dsn
    | _ => none

/-- How many `db.Close()` calls `tryOpen` issues on the probe handle, by probe outcome:
none when there is no handle, two when the live connection is opened (one explicit, one
deferred), one (the deferred one) otherwise. -/
def ProbeOutcome.closes : ProbeOutcome σ D R → Nat
  | .openFailed _ _ => 0
  | .queryFailed _ _ _ => 1
  | .noRows _ _ _ _ => 1
  | .scanFailed _ _ _ _ => 1
  | .row _ _ v _ => if v = "on" then 1 else 2

/-- The probe outcome on which `tryOpen` goes on to the live connection: one row that
decodes to something other than `on`. -/
def ProbeOutcome.writable : ProbeOutcome σ D R → Bool
  | .row _ _ v _ => decide (v ≠ "on")
  | _ => false

/-! ## A connector test double -/

/-- A test double of `database/sql` whose state counts the calls it has served.  Only the
driver names in `registered` can be opened; the data source name decides the behaviour:
`down` cannot be opened, `badq` fails the query, `empty` answers no row and no error,
`undec` answers a row that does not decode, `ro` answers `on`, `upper` answers `ON`,
`blank` answers the empty string, anything else `off`. -/
def stubHost (registered : List String) : Host Nat String String where
  sqlOpen driverName dsn n :=
    (if driverName ∈ registered then
        (if dsn = "down" then .error { msg := "connection refused" } else .ok dsn)
      else .error { msg := "sql: unknown driver" },
     n + 1)
  dbQuery db _ n := (if db = "badq" then .error { msg := "query failed" } else .ok db, n + 1)
  dbClose _ n := n + 1
  rowsNext rows n := (decide (rows ≠ "empty"), n + 1)
  rowsErr _ n := (none, n + 1)
  rowsScan rows n :=
    (if rows = "undec" then .error { msg := "scan failed" }
      else if rows = "ro" then .ok "on"
      else if rows = "upper" then .ok "ON"
      else if rows = "blank" then .ok ""
      else .ok "off",
     n + 1)
  rowsClose _ n := n + 1

/-- A test double of the delegate driver: it refuses `nolive` and opens anything else. -/
def stubDelegate : DriverIface Nat String where
  Open name n :=
    (if name = "nolive" then (none, some { msg := "live open refused" })
      else (some ("live:" ++ name), none),
     n + 1)

/-- The host in which the delegate's own driver is registered as `postgres`. -/
def pqHost : Host Nat String String := stubHost ["postgres", registeredName]

/-- The host in which only the wrapper has been registered (by `InitDriver`). -/
def bareHost : Host Nat String String := stubHost [(InitDriver stubDelegate).1]

/-- The wrapper driver that `InitDriver` builds around the test delegate. -/
def stubDriver : Driver Nat String := (InitDriver stubDelegate).2

/-- The initial world of the test double: no call served, empty trace. -/
def w0 : World Nat String String := { st := 0, trace := [] }

/-! # Theorems -/

/-! ## `strings.Split` / `strings.Join` -/

theorem splitChars_ne_nil (sep : Char) (l : List Char) : splitChars sep l ≠ [] := by
  cases l with
  | nil => simp [splitChars]
  | cons c cs =>
    unfold splitChars
    by_cases hc : c = sep
    · simp [hc]
    · cases hsp : splitChars sep cs <;> simp [hc]

/-- The loop of Go's `genSplit`: the first segment is what precedes the first separator,
and the rest is the split of what follows it; without a separator the input is the only
segment. -/
theorem splitChars_eq_cut (sep : Char) (l : List Char) :
    splitChars sep l =
      l.takeWhile (fun c => decide (c ≠ sep)) ::
        (match l.dropWhile (fun c => decide (c ≠ sep)) with
          | [] => []
          | _ :: tl => splitChars sep tl) := by
  induction l with
  | nil => simp [splitChars]
  | cons c cs ih =>
    by_cases hc : c = sep
    · simp [splitChars, hc, List.takeWhile, List.dropWhile]
    · rw [splitChars, if_neg hc, ih]
      simp [hc, List.takeWhile, List.dropWhile]

theorem splitChars_length (sep : Char) (l : List Char) :
    (splitChars sep l).length = l.count sep + 1 := by
  induction l with
  | nil => simp [splitChars]
  | cons c cs ih =>
    unfold splitChars
    by_cases hc : c = sep
    · simp [hc, ih]
    · cases hsp : splitChars sep cs with
      | nil => exact absurd hsp (splitChars_ne_nil sep cs)
      | cons seg segs =>
        rw [hsp] at ih
        simp only [List.length_cons] at ih
        simp [hc, List.count_cons, ih]

theorem joinChars_cons_head (sep c : Char) (seg : List Char) (segs : List (List Char)) :
    joinChars sep ((c :: seg) :: segs) = c :: joinChars sep (seg :: segs) := by
  cases segs <;> simp [joinChars]

theorem joinChars_splitChars (sep : Char) (l : List Char) :
    joinChars sep (splitChars sep l) = l := by
  induction l with
  | nil => simp [splitChars, joinChars]
  | cons c cs ih =>
    unfold splitChars
    by_cases hc : c = sep
    · cases hsp : splitChars sep cs with
      | nil => exact absurd hsp (splitChars_ne_nil sep cs)
      | cons seg segs =>
        rw [hsp] at ih
        simp [hc, joinChars, ih]
    · cases hsp : splitChars sep cs with
      | nil => exact absurd hsp (splitChars_ne_nil sep cs)
      | cons seg segs =>
        rw [hsp] at ih
        simp [hc, joinChars_cons_head, ih]

theorem splitChars_not_mem (sep : Char) (l : List Char) :
    ∀ seg ∈ splitChars sep l, sep ∉ seg := by
  induction l with
  | nil => simp [splitChars]
  | cons c cs ih =>
    unfold splitChars
    by_cases hc : c = sep
    · intro seg hseg
      simp only [hc, if_true, List.mem_cons] at hseg
      rcases hseg with rfl | hseg
      · simp
      · exact ih seg hseg
    · cases hsp : splitChars sep cs with
      | nil => exact absurd hsp (splitChars_ne_nil sep cs)
      | cons seg0 segs =>
        rw [hsp] at ih
        intro seg hseg
        simp only [hc, if_false, List.mem_cons] at hseg
        rcases hseg with rfl | hseg
        · have h0 := ih seg0 (List.mem_cons_self _ _)
          simp only [List.mem_cons, not_or]
          exact ⟨fun he => hc he.symm, h0⟩
        · exact ih seg (List.mem_cons_of_mem _ hseg)

theorem splitChars_of_not_mem (sep : Char) (a : List Char) (ha : sep ∉ a) :
    splitChars sep a = [a] := by
  induction a with
  | nil => simp [splitChars]
  | cons c cs ih =>
    simp only [List.mem_cons, not_or] at ha
    have hc : c ≠ sep := fun he => ha.1 he.symm
    rw [splitChars, if_neg hc, ih ha.2]

theorem splitChars_append_sep (sep : Char) (a rest : List Char) (ha : sep ∉ a) :
    splitChars sep (a ++ sep :: rest) = a :: splitChars sep rest := by
  induction a with
  | nil => simp [splitChars]
  | cons c cs ih =>
    simp only [List.mem_cons, not_or] at ha
    have hc : c ≠ sep := fun he => ha.1 he.symm
    rw [List.cons_append, splitChars, if_neg hc, ih ha.2]

theorem splitChars_joinChars (sep : Char) (L : List (List Char)) (hne : L ≠ [])
    (hc : ∀ seg ∈ L, sep ∉ seg) : splitChars sep (joinChars sep L) = L := by
  induction L with
  | nil => exact absurd rfl hne
  | cons a rest ih =>
    cases rest with
    | nil => simpa [joinChars] using splitChars_of_not_mem sep a (hc a (List.mem_cons_self _ _))
    | cons b rest2 =>
      have hrest : ∀ seg ∈ b :: rest2, sep ∉ seg :=
        fun seg hseg => hc seg (List.mem_cons_of_mem _ hseg)
      rw [joinChars, splitChars_append_sep sep a _ (hc a (List.mem_cons_self _ _)),
        ih (by simp) hrest]

theorem stringsSplit_ne_nil (s : String) (sep : Char) : stringsSplit s sep ≠ [] := by
  simp [stringsSplit, splitChars_ne_nil]

theorem stringsSplit_stringsJoin (sep : Char) (L : List String) (hne : L ≠ [])
    (hc : ∀ s ∈ L, sep ∉ s.data) : stringsSplit (stringsJoin L sep) sep = L := by
  unfold stringsSplit stringsJoin
  rw [splitChars_joinChars sep (L.map String.data) (by simpa using hne)
    (by
      intro seg hseg
      rcases List.mem_map.mp hseg with ⟨s, hs, rfl⟩
      exact hc s hs)]
  rw [List.map_map]
  exact (List.map_congr_left (fun s _ => rfl)).trans (List.map_id L)

/-! ## `tryOpen` path by path -/

theorem tryOpen_eq_finish (h : Host σ D R) (d : Driver σ C) (s : String) (w : World σ D R) :
    d.tryOpen h s w = finish h d s w (probe h s w.st) := by
  unfold Driver.tryOpen probe
  simp only [sqlOpen, dbQuery, rowsNext, rowsScan, rowsErr, rowsClose, dbClose, delegateOpen,
    World.step, finish, tagged, readinessQuery, readonlyError]
  cases h.sqlOpen "postgres" s w.st with
  | mk r1 st1 =>
    cases r1 with
    | error e => simp
    | ok db =>
      simp only []
      cases h.dbQuery db "SHOW transaction_read_only" st1 with
      | mk r2 st2 =>
        cases r2 with
        | error e => simp
        | ok rows =>
          simp only []
          cases h.rowsNext rows st2 with
          | mk r3 st3 =>
            cases r3 with
            | false => simp
            | true =>
              simp only []
              cases h.rowsScan rows st3 with
              | mk r4 st4 =>
                cases r4 with
                | error e => simp
                | ok v =>
                  simp only []
                  by_cases hv : v = "on" <;> simp [hv]


theorem emitted_of_trace_eq (w w1 : World σ D R) (x : List (Event D R))
    (hx : w1.trace = w.trace ++ x) : emitted w w1 = x := by
  simp [emitted, hx]

theorem finish_trace (h : Host σ D R) (d : Driver σ C) (s : String) (w : World σ D R)
    (o : ProbeOutcome σ D R) :
    ∃ tl, (finish h d s w o).2.trace = w.trace ++ { cand := s, op := .sqlOpen "postgres" s } :: tl
      ∧ ∀ e ∈ tl, e.cand = s := by
  cases o with
  | openFailed err st => exact ⟨[], by simp [finish, tagged]⟩
  | queryFailed db err st =>
    exact ⟨tagged s [.dbQuery db readinessQuery, .dbClose db], by simp [finish, tagged]⟩
  | noRows db rows err st =>
    exact ⟨tagged s [.dbQuery db readinessQuery, .rowsNext rows, .rowsErr rows,
      .rowsClose rows, .dbClose db], by simp [finish, tagged]⟩
  | scanFailed db rows err st =>
    exact ⟨tagged s [.dbQuery db readinessQuery, .rowsNext rows, .rowsScan rows,
      .rowsClose rows, .dbClose db], by simp [finish, tagged]⟩
  | row db rows v st =>
    by_cases hv : v = "on"
    · exact ⟨tagged s [.dbQuery db readinessQuery, .rowsNext rows, .rowsScan rows,
        .rowsClose rows, .dbClose db], by simp [finish, tagged, hv]⟩
    · exact ⟨tagged s [.dbQuery db readinessQuery, .rowsNext rows, .rowsScan rows,
        .dbClose db, .delegateOpen s, .rowsClose rows, .dbClose db],
        by simp [finish, tagged, hv]⟩

/-- Every evaluation of a candidate extends the trace, starting with the probe open
`sql.Open("postgres", s)`, by calls that are all tagged with that candidate. -/
theorem tryOpen_trace (h : Host σ D R) (d : Driver σ C) (s : String) (w : World σ D R) :
    ∃ tl, (d.tryOpen h s w).2.trace =
        w.trace ++ { cand := s, op := .sqlOpen "postgres" s } :: tl
      ∧ ∀ e ∈ tl, e.cand = s := by
  rw [tryOpen_eq_finish]
  exact finish_trace h d s w _

/-! ## The loop of `Driver.Open` -/

theorem openLoop_cons_err (h : Host σ D R) (d : Driver σ C) (s : String) (rest : List String)
    (err err1 : Option GoError) (w : World σ D R) :
    d.openLoop h (s :: rest) err w = d.openLoop h (s :: rest) err1 w := by
  simp only [Driver.openLoop]

theorem openLoop_cons_ok (h : Host σ D R) (d : Driver σ C) (s : String) (rest : List String)
    (err : Option GoError) (w : World σ D R) (hok : (d.tryOpen h s w).1.2 = none) :
    d.openLoop h (s :: rest) err w = (((d.tryOpen h s w).1.1, none), (d.tryOpen h s w).2) := by
  simp only [Driver.openLoop, hok]

theorem openLoop_cons_fail (h : Host σ D R) (d : Driver σ C) (s : String) (rest : List String)
    (err : Option GoError) (w : World σ D R) (e : GoError)
    (hfail : (d.tryOpen h s w).1.2 = some e) :
    d.openLoop h (s :: rest) err w = d.openLoop h rest (some e) (d.tryOpen h s w).2 := by
  simp only [Driver.openLoop, hfail]

theorem openLoop_append_cons (h : Host σ D R) (d : Driver σ C) (pre : List String) (s : String)
    (rest : List String) :
    ∀ (w : World σ D R) (err err1 : Option GoError), allFail h d pre w = true →
      d.openLoop h (pre ++ s :: rest) err w = d.openLoop h (s :: rest) err1 (runAll h d pre w) := by
  induction pre with
  | nil =>
    intro w err err1 _
    exact openLoop_cons_err h d s rest err err1 w
  | cons p ps ih =>
    intro w err err1 hall
    simp only [allFail, Bool.and_eq_true, Option.isSome_iff_exists] at hall
    obtain ⟨⟨e, he⟩, hrest⟩ := hall
    rw [List.cons_append, openLoop_cons_fail h d p _ err w e he]
    exact ih _ _ _ hrest

theorem runAll_append (h : Host σ D R) (d : Driver σ C) (l1 l2 : List String) :
    ∀ w : World σ D R, runAll h d (l1 ++ l2) w = runAll h d l2 (runAll h d l1 w) := by
  induction l1 with
  | nil => intro w; rfl
  | cons p ps ih => intro w; exact ih _

theorem allFail_append (h : Host σ D R) (d : Driver σ C) (l1 l2 : List String) :
    ∀ w : World σ D R, allFail h d (l1 ++ l2) w =
      (allFail h d l1 w && allFail h d l2 (runAll h d l1 w)) := by
  induction l1 with
  | nil => intro w; simp [allFail, runAll]
  | cons p ps ih => intro w; simp [allFail, runAll, ih, Bool.and_assoc]

/-- The trace of a run over a list of candidates is one non-empty block of calls for each
candidate, in order, each block tagged with its candidate. -/
theorem runAll_trace (h : Host σ D R) (d : Driver σ C) (l : List String) :
    ∀ w : World σ D R, ∃ segs : List (List (Event D R)),
      List.Forall₂ (fun c seg => seg ≠ [] ∧ ∀ e ∈ seg, e.cand = c) l segs ∧
      (runAll h d l w).trace = w.trace ++ segs.flatten := by
  induction l with
  | nil => intro w; exact ⟨[], List.Forall₂.nil, by simp [runAll]⟩
  | cons p ps ih =>
    intro w
    obtain ⟨tl, htl, htag⟩ := tryOpen_trace h d p w
    obtain ⟨segs, hsegs, htr⟩ := ih (d.tryOpen h p w).2
    refine ⟨({ cand := p, op := .sqlOpen "postgres" p } :: tl) :: segs,
      List.Forall₂.cons ⟨by simp, ?_⟩ hsegs, ?_⟩
    · intro e he
      rcases List.mem_cons.mp he with rfl | he
      · rfl
      · exact htag e he
    · simp only [runAll]
      rw [htr, htl]
      simp

/-- A probe outcome that eliminates the candidate has `tryOpen` return a non-nil error. -/
theorem tryOpen_fails_of_eliminates (h : Host σ D R) (d : Driver σ C) (s : String)
    (w : World σ D R) (helim : (probe h s w.st).eliminates = true) :
    (d.tryOpen h s w).1.2.isSome = true := by
  rw [tryOpen_eq_finish]
  cases hp : probe h s w.st with
  | openFailed err st => simp [finish]
  | queryFailed db err st => simp [finish]
  | noRows db rows err st => simp [hp, ProbeOutcome.eliminates] at helim
  | scanFailed db rows err st => simp [finish]
  | row db rows v st =>
    have hv : v = "on" := by simpa [hp, ProbeOutcome.eliminates] using helim
    simp [finish, hv]

theorem allFail_of_allEliminated (h : Host σ D R) (d : Driver σ C) (l : List String) :
    ∀ w : World σ D R, allEliminated h d l w = true → allFail h d l w = true := by
  induction l with
  | nil => intro w _; rfl
  | cons p ps ih =>
    intro w hall
    simp only [allEliminated, Bool.and_eq_true] at hall
    simp only [allFail, Bool.and_eq_true]
    exact ⟨tryOpen_fails_of_eliminates h d p w hall.1, ih _ hall.2⟩


/-- The row decodes to something other than `on`: the probe handle is closed, the delegate
opens the live connection, and the two deferred closes run. -/
theorem tryOpen_writable (h : Host σ D R) (d : Driver σ C) (s : String) (w : World σ D R)
    (db : D) (rows : R) (v : String) (st4 : σ)
    (hprobe : probe h s w.st = .row db rows v st4) (hv : v ≠ "on") :
    d.tryOpen h s w =
      ((d.delegate.Open s (h.dbClose db st4)).1,
        { st := h.dbClose db (h.rowsClose rows (d.delegate.Open s (h.dbClose db st4)).2),
          trace := w.trace ++ tagged s [.sqlOpen "postgres" s, .dbQuery db readinessQuery,
            .rowsNext rows, .rowsScan rows, .dbClose db, .delegateOpen s, .rowsClose rows,
            .dbClose db] }) := by
  rw [tryOpen_eq_finish, hprobe]
  simp [finish, hv]

/-- The row decodes to `on`: the read-only error, and the two deferred closes. -/
theorem tryOpen_readonly (h : Host σ D R) (d : Driver σ C) (s : String) (w : World σ D R)
    (db : D) (rows : R) (st4 : σ) (hprobe : probe h s w.st = .row db rows "on" st4) :
    d.tryOpen h s w =
      ((none, some readonlyError),
        { st := h.dbClose db (h.rowsClose rows st4),
          trace := w.trace ++ tagged s [.sqlOpen "postgres" s, .dbQuery db readinessQuery,
            .rowsNext rows, .rowsScan rows, .rowsClose rows, .dbClose db] }) := by
  rw [tryOpen_eq_finish, hprobe]
  simp [finish]

theorem tryOpen_probed (h : Host σ D R) (d : Driver σ C) (s : String) (w : World σ D R) :
    ∃ x, (d.tryOpen h s w).2.trace = w.trace ++ x ∧ probed x = [s] := by
  rw [tryOpen_eq_finish]
  cases probe h s w.st with
  | openFailed err st => exact ⟨_, rfl, by simp [probed, tagged]⟩
  | queryFailed db err st => exact ⟨_, rfl, by simp [probed, tagged]⟩
  | noRows db rows err st => exact ⟨_, rfl, by simp [probed, tagged]⟩
  | scanFailed db rows err st => exact ⟨_, rfl, by simp [probed, tagged]⟩
  | row db rows v st =>
    by_cases hv : v = "on"
    · simp only [finish, hv, if_true]
      exact ⟨_, rfl, by simp [probed, tagged]⟩
    · simp only [finish, hv, if_false]
      exact ⟨_, rfl, by simp [probed, tagged]⟩

theorem runAll_probed (h : Host σ D R) (d : Driver σ C) (l : List String) :
    ∀ w : World σ D R, ∃ x, (runAll h d l w).trace = w.trace ++ x ∧ probed x = l := by
  induction l with
  | nil => intro w; exact ⟨[], by simp [runAll], rfl⟩
  | cons p ps ih =>
    intro w
    obtain ⟨x, hx, hpx⟩ := tryOpen_probed h d p w
    obtain ⟨y, hy, hpy⟩ := ih (d.tryOpen h p w).2
    refine ⟨x ++ y, ?_, ?_⟩
    · simp only [runAll]
      rw [hy, hx, List.append_assoc]
    · simp only [probed, List.filterMap_append] at hpx hpy ⊢
      rw [hpx, hpy]
      rfl

/-- When the candidates before `ci` all fail and `ci` does not, `Driver.Open` stops in the
world that evaluating `ci` leaves. -/
theorem open_stops_at (h : Host σ D R) (d : Driver σ C) (connStr : String)
    (pre : List String) (ci : String) (post : List String) (w : World σ D R)
    (hsplit : stringsSplit connStr ',' = pre ++ ci :: post)
    (hpre : allFail h d pre w = true)
    (hci : (d.tryOpen h ci (runAll h d pre w)).1.2 = none) :
    d.Open h connStr w =
      (((d.tryOpen h ci (runAll h d pre w)).1.1, none), runAll h d (pre ++ [ci]) w) := by
  unfold Driver.Open
  rw [hsplit, openLoop_append_cons h d pre ci post w none none hpre,
    openLoop_cons_ok h d ci post none _ hci, runAll_append]
  rfl

/-- When every candidate fails, `Driver.Open` has evaluated them all and returns the last
error. -/
theorem open_exhausted (h : Host σ D R) (d : Driver σ C) (connStr : String)
    (pre : List String) (last : String) (w : World σ D R)
    (hsplit : stringsSplit connStr ',' = pre ++ [last])
    (hall : allFail h d (pre ++ [last]) w = true) :
    d.Open h connStr w =
      ((none, (d.tryOpen h last (runAll h d pre w)).1.2), runAll h d (pre ++ [last]) w) := by
  rw [allFail_append] at hall
  simp only [allFail, Bool.and_eq_true, Option.isSome_iff_exists, and_true] at hall
  obtain ⟨hpre, e, he⟩ := hall
  unfold Driver.Open
  rw [hsplit, openLoop_append_cons h d pre last [] w none none hpre,
    openLoop_cons_fail h d last [] none _ e he, runAll_append, he]
  rfl


/-- Whatever the loop of `Driver.Open` does, it only extends the trace. -/
theorem openLoop_trace (h : Host σ D R) (d : Driver σ C) (l : List String) :
    ∀ (err : Option GoError) (w : World σ D R),
      ∃ tl, (d.openLoop h l err w).2.trace = w.trace ++ tl := by
  induction l with
  | nil => intro err w; exact ⟨[], by simp [Driver.openLoop]⟩
  | cons p ps ih =>
    intro err w
    obtain ⟨tl, htl, _⟩ := tryOpen_trace h d p w
    cases hr : (d.tryOpen h p w).1.2 with
    | none =>
      rw [openLoop_cons_ok h d p ps err w hr]
      exact ⟨_, htl⟩
    | some e =>
      rw [openLoop_cons_fail h d p ps err w e hr]
      obtain ⟨tl2, htl2⟩ := ih (some e) (d.tryOpen h p w).2
      exact ⟨_, by rw [htl2, htl, List.append_assoc]⟩

/-- The first call of the loop on a non-empty list is the probe open of its head. -/
theorem openLoop_cons_head (h : Host σ D R) (d : Driver σ C) (p : String) (ps : List String)
    (err : Option GoError) (w : World σ D R) :
    (emitted w (d.openLoop h (p :: ps) err w).2).head? =
      some { cand := p, op := .sqlOpen "postgres" p } := by
  obtain ⟨tl, htl, _⟩ := tryOpen_trace h d p w
  cases hr : (d.tryOpen h p w).1.2 with
  | none =>
    rw [openLoop_cons_ok h d p ps err w hr, emitted_of_trace_eq w _ _ htl]
    rfl
  | some e =>
    rw [openLoop_cons_fail h d p ps err w e hr]
    obtain ⟨tl2, htl2⟩ := openLoop_trace h d ps (some e) (d.tryOpen h p w).2
    rw [emitted_of_trace_eq w _ (({ cand := p, op := .sqlOpen "postgres" p } :: tl) ++ tl2)
      (by rw [htl2, htl, List.append_assoc])]
    rfl


/-- The probe opens and closes of one evaluation, read off the trace path by path. -/
theorem tryOpen_open_close_counts (h : Host σ D R) (d : Driver σ C) (s : String)
    (w : World σ D R) :
    countSqlOpen (emitted w (d.tryOpen h s w).2) = 1 ∧
    countDbClose (emitted w (d.tryOpen h s w).2) = (probe h s w.st).closes ∧
    (∀ db : D, (h.sqlOpen "postgres" s w.st).1 = .ok db →
      1 ≤ (probe h s w.st).closes ∧
      (emitted w (d.tryOpen h s w).2).getLast? = some { cand := s, op := .dbClose db } ∧
      ∀ e ∈ emitted w (d.tryOpen h s w).2, ∀ db1 : D, e.op = .dbClose db1 → db1 = db) ∧
    (∀ err : GoError, (h.sqlOpen "postgres" s w.st).1 = .error err →
      (probe h s w.st).closes = 0) := by
  rw [tryOpen_eq_finish]
  unfold probe
  cases h1 : (h.sqlOpen "postgres" s w.st).1 with
  | error e1 =>
    simp only []
    rw [emitted_of_trace_eq w _ _ rfl]
    simp [countSqlOpen, countDbClose, tagged, ProbeOutcome.closes]
  | ok db =>
    simp only []
    cases h2 : (h.dbQuery db "SHOW transaction_read_only" (h.sqlOpen "postgres" s w.st).2).1 with
    | error e2 =>
      simp only []
      rw [emitted_of_trace_eq w _ _ rfl]
      simp [countSqlOpen, countDbClose, tagged, ProbeOutcome.closes]
    | ok rows =>
      simp only []
      cases h3 : (h.rowsNext rows
          (h.dbQuery db "SHOW transaction_read_only" (h.sqlOpen "postgres" s w.st).2).2).1 with
      | false =>
        simp only []
        rw [emitted_of_trace_eq w _ _ rfl]
        simp [countSqlOpen, countDbClose, tagged, ProbeOutcome.closes]
      | true =>
        simp only []
        cases h4 : (h.rowsScan rows (h.rowsNext rows
            (h.dbQuery db "SHOW transaction_read_only" (h.sqlOpen "postgres" s w.st).2).2).2).1 with
        | error e4 =>
          simp only []
          rw [emitted_of_trace_eq w _ _ rfl]
          simp [countSqlOpen, countDbClose, tagged, ProbeOutcome.closes]
        | ok v =>
          simp only []
          by_cases hv : v = "on"
          · simp only [finish, hv, if_true]
            rw [emitted_of_trace_eq w _ _ rfl]
            simp [countSqlOpen, countDbClose, tagged, ProbeOutcome.closes]
          · simp only [finish, hv, if_false]
            rw [emitted_of_trace_eq w _ _ rfl]
            simp [countSqlOpen, countDbClose, tagged, ProbeOutcome.closes, hv]


theorem emitted_mk (w : World σ D R) (st : σ) (x : List (Event D R)) :
    emitted w { st := st, trace := w.trace ++ x } = x := by
  simp [emitted]

/-- The delegate is called once when the probe outcome is writable and not at all on any
other path; on those paths no connection is returned and the whole evaluation is the same
whatever the delegate is. -/
theorem tryOpen_delegate_calls (h : Host σ D R) (d : Driver σ C) (s : String)
    (w : World σ D R) :
    countDelegateOpen (emitted w (d.tryOpen h s w).2) =
      (if (probe h s w.st).writable = true then 1 else 0) ∧
    (∀ e ∈ emitted w (d.tryOpen h s w).2, ∀ name : String,
      e.op = .delegateOpen name → name = s) ∧
    ((probe h s w.st).writable = false →
      (d.tryOpen h s w).1.1 = none ∧
      ∀ d2 : Driver σ C, d2.tryOpen h s w = d.tryOpen h s w) := by
  simp only [tryOpen_eq_finish]
  cases probe h s w.st with
  | openFailed err st =>
    simp [finish, emitted_mk, countDelegateOpen, tagged, ProbeOutcome.writable]
  | queryFailed db err st =>
    simp [finish, emitted_mk, countDelegateOpen, tagged, ProbeOutcome.writable]
  | noRows db rows err st =>
    simp [finish, emitted_mk, countDelegateOpen, tagged, ProbeOutcome.writable]
  | scanFailed db rows err st =>
    simp [finish, emitted_mk, countDelegateOpen, tagged, ProbeOutcome.writable]
  | row db rows v st =>
    by_cases hv : v = "on"
    · simp [finish, emitted_mk, countDelegateOpen, tagged, ProbeOutcome.writable, hv]
    · simp [finish, emitted_mk, countDelegateOpen, tagged, ProbeOutcome.writable, hv]

/-! ## The claims -/

/-- C1: when the comma-separated candidates are `pre ++ ci :: post`, every candidate of
`pre` is eliminated by its probe (probe open fails, readiness query fails, row does not
decode, or row reports read-only), `ci` yields a row other than `on` and the delegate's
`Open` of `ci` returns `con` with a nil error, then `Driver.Open` returns exactly `con`
with a nil error, and the calls made for `ci` are the probe (open, query, next, scan,
close of the probe handle) followed by a separate `delegate.Open(ci)` and the deferred
closes: the connection returned is the delegate's, not the probe handle. -/
theorem C1_first_writable_wins (h : Host σ D R) (d : Driver σ C) (connStr : String)
    (pre : List String) (ci : String) (post : List String) (w : World σ D R)
    (db : D) (rows : R) (v : String) (st4 : σ) (con : Option C)
    (hsplit : stringsSplit connStr ',' = pre ++ ci :: post)
    (hpre : allEliminated h d pre w = true)
    (hprobe : probe h ci (runAll h d pre w).st = .row db rows v st4)
    (hv : v ≠ "on")
    (hlive : (d.delegate.Open ci (h.dbClose db st4)).1 = (con, none)) :
    (d.Open h connStr w).1 = (con, none) ∧
    emitted (runAll h d pre w) (d.Open h connStr w).2 =
      tagged ci [.sqlOpen "postgres" ci, .dbQuery db readinessQuery, .rowsNext rows,
        .rowsScan rows, .dbClose db, .delegateOpen ci, .rowsClose rows, .dbClose db] := by
  have hw := tryOpen_writable h d ci (runAll h d pre w) db rows v st4 hprobe hv
  have hci : (d.tryOpen h ci (runAll h d pre w)).1.2 = none := by rw [hw, hlive]
  rw [open_stops_at h d connStr pre ci post w hsplit (allFail_of_allEliminated h d pre w hpre) hci]
  constructor
  · rw [hw, hlive]
  · apply emitted_of_trace_eq
    rw [runAll_append]
    simp only [runAll]
    rw [hw]

/-- C1 at the candidates `down,badq,undec,ro,rw,x` of the test double: the four ways of
elimination, then a writable candidate. -/
theorem C1_first_writable_wins_witness :
    allEliminated pqHost stubDriver ["down", "badq", "undec", "ro"] w0 = true ∧
    (stubDriver.Open pqHost "down,badq,undec,ro,rw,x" w0).1 = (some "live:rw", none) ∧
    emitted (runAll pqHost stubDriver ["down", "badq", "undec", "ro"] w0)
        (stubDriver.Open pqHost "down,badq,undec,ro,rw,x" w0).2 =
      tagged "rw" [.sqlOpen "postgres" "rw", .dbQuery "rw" readinessQuery, .rowsNext "rw",
        .rowsScan "rw", .dbClose "rw", .delegateOpen "rw", .rowsClose "rw", .dbClose "rw"] :=
  ⟨by decide,
    C1_first_writable_wins pqHost stubDriver "down,badq,undec,ro,rw,x"
      ["down", "badq", "undec", "ro"] "rw" ["x"] w0 "rw" "rw" "off" 20 (some "live:rw")
      (by decide) (by decide) (by rfl) (by decide) (by rfl)⟩

/-- C2: when the candidates are `pre ++ ci :: post`, every candidate of `pre` fails and
`tryOpen` of `ci` returns a nil error, `Driver.Open` ends in the world that evaluating
`pre ++ [ci]` leaves: the candidates probed are exactly `pre ++ [ci]`, in order, and the
calls made are one non-empty block for each of them, tagged with it; nothing is done for
`post`. -/
theorem C2_nothing_after_success (h : Host σ D R) (d : Driver σ C) (connStr : String)
    (pre : List String) (ci : String) (post : List String) (w : World σ D R)
    (hsplit : stringsSplit connStr ',' = pre ++ ci :: post)
    (hpre : allFail h d pre w = true)
    (hci : (d.tryOpen h ci (runAll h d pre w)).1.2 = none) :
    (d.Open h connStr w).2 = runAll h d (pre ++ [ci]) w ∧
    probed (emitted w (d.Open h connStr w).2) = pre ++ [ci] ∧
    ∃ segs : List (List (Event D R)),
      List.Forall₂ (fun c seg => seg ≠ [] ∧ ∀ e ∈ seg, e.cand = c) (pre ++ [ci]) segs ∧
      emitted w (d.Open h connStr w).2 = segs.flatten := by
  rw [open_stops_at h d connStr pre ci post w hsplit hpre hci]
  refine ⟨rfl, ?_, ?_⟩
  · obtain ⟨x, hx, hpx⟩ := runAll_probed h d (pre ++ [ci]) w
    rw [emitted_of_trace_eq w _ x hx, hpx]
  · obtain ⟨segs, hsegs, htr⟩ := runAll_trace h d (pre ++ [ci]) w
    exact ⟨segs, hsegs, emitted_of_trace_eq w _ _ htr⟩

/-- C2 at the candidates `ro,rw,x,y` of the test double: `x` and `y` are never touched. -/
theorem C2_nothing_after_success_witness :
    allFail pqHost stubDriver ["ro"] w0 = true ∧
    (stubDriver.tryOpen pqHost "rw" (runAll pqHost stubDriver ["ro"] w0)).1.2 = none ∧
    probed (emitted w0 (stubDriver.Open pqHost "ro,rw,x,y" w0).2) = ["ro", "rw"] :=
  ⟨by decide, by decide,
    (C2_nothing_after_success pqHost stubDriver "ro,rw,x,y" ["ro"] "rw" ["x", "y"] w0
      (by decide) (by decide) (by decide)).2.1⟩

/-- C3: when the candidates are `pre ++ [last]` and every one of them, evaluated in turn,
has `tryOpen` return a non-nil error, `Driver.Open` returns a nil connection with the error
that `tryOpen` returned for `last`, whatever the errors of `pre` were, after evaluating
every candidate. -/
theorem C3_exhaustion_returns_last_error (h : Host σ D R) (d : Driver σ C) (connStr : String)
    (pre : List String) (last : String) (w : World σ D R)
    (hsplit : stringsSplit connStr ',' = pre ++ [last])
    (hall : allFail h d (stringsSplit connStr ',') w = true) :
    (d.Open h connStr w).1 = (none, (d.tryOpen h last (runAll h d pre w)).1.2) ∧
    (d.tryOpen h last (runAll h d pre w)).1.2 ≠ none ∧
    (d.Open h connStr w).2 = runAll h d (pre ++ [last]) w := by
  rw [hsplit] at hall
  rw [open_exhausted h d connStr pre last w hsplit hall]
  refine ⟨rfl, ?_, rfl⟩
  rw [allFail_append] at hall
  simp only [allFail, Bool.and_eq_true, and_true] at hall
  intro hnone
  rw [hnone] at hall
  simp at hall

/-- C3 at the candidates `down,badq` of the test double: the error is that of `badq`. -/
theorem C3_exhaustion_returns_last_error_witness :
    allFail pqHost stubDriver (stringsSplit "down,badq" ',') w0 = true ∧
    (stubDriver.tryOpen pqHost "down" w0).1.2 = some { msg := "connection refused" } ∧
    (stubDriver.Open pqHost "down,badq" w0).1 = (none, some { msg := "query failed" }) :=
  ⟨by decide, by decide,
    (C3_exhaustion_returns_last_error pqHost stubDriver "down,badq" ["down"] "badq" w0
      (by decide) (by decide)).1⟩


/-- C4: the code at a connector whose readiness query succeeds with no row and no row
error: `tryOpen` returns `nil, rows.Err()`, that is a nil connection with a nil error, and
`Driver.Open` takes the nil error for success and returns the nil connection with a nil
error, without looking at the writable candidate that follows. -/
theorem C4_no_rows_gives_nil_nil :
    probe pqHost "empty" w0.st = .noRows "empty" "empty" none 4 ∧
    (stubDriver.tryOpen pqHost "empty" w0).1 = (none, none) ∧
    (stubDriver.Open pqHost "empty" w0).1 = (none, none) ∧
    (stubDriver.Open pqHost "empty,rw" w0).1 = (none, none) ∧
    probed (emitted w0 (stubDriver.Open pqHost "empty,rw" w0).2) = ["empty"] := by
  refine ⟨by rfl, by decide, by decide, by decide, by decide⟩

/-- C5: for a candidate whose probe yields one row decoding to `v`: if `v` is `on`,
`tryOpen` returns no connection and the error with message `database in readonly mode`,
and the delegate's `Open` is not called; for every other `v`, `tryOpen` returns what the
delegate's `Open` returns for the same endpoint string, called once.  And when the
candidates are `[X, Y]` and both yield `on`, `Driver.Open` returns a nil connection and
the error `database in readonly mode`. -/
theorem C5_readonly_indicator (h : Host σ D R) (d : Driver σ C) :
    (∀ (s : String) (w : World σ D R) (db : D) (rows : R) (v : String) (st4 : σ),
      probe h s w.st = .row db rows v st4 →
        (v = "on" →
          (d.tryOpen h s w).1 = (none, some { msg := "database in readonly mode" }) ∧
          countDelegateOpen (emitted w (d.tryOpen h s w).2) = 0) ∧
        (v ≠ "on" →
          (d.tryOpen h s w).1 = (d.delegate.Open s (h.dbClose db st4)).1 ∧
          countDelegateOpen (emitted w (d.tryOpen h s w).2) = 1 ∧
          { cand := s, op := .delegateOpen s } ∈ emitted w (d.tryOpen h s w).2)) ∧
    (∀ (connStr X Y : String) (w : World σ D R) (dbX dbY : D) (rowsX rowsY : R)
        (stX stY : σ),
      stringsSplit connStr ',' = [X, Y] →
      probe h X w.st = .row dbX rowsX "on" stX →
      probe h Y (d.tryOpen h X w).2.st = .row dbY rowsY "on" stY →
      (d.Open h connStr w).1 = (none, some { msg := "database in readonly mode" })) := by
  constructor
  · intro s w db rows v st4 hprobe
    constructor
    · intro hv
      subst hv
      have hw := tryOpen_readonly h d s w db rows st4 hprobe
      rw [hw, emitted_of_trace_eq w _ _ rfl]
      exact ⟨rfl, by simp [countDelegateOpen, tagged]⟩
    · intro hv
      have hw := tryOpen_writable h d s w db rows v st4 hprobe hv
      rw [hw, emitted_of_trace_eq w _ _ rfl]
      exact ⟨rfl, by simp [countDelegateOpen, tagged], by simp [tagged]⟩
  · intro connStr X Y w dbX dbY rowsX rowsY stX stY hsplit hX hY
    have hwX := tryOpen_readonly h d X w dbX rowsX stX hX
    have hwY := tryOpen_readonly h d Y (d.tryOpen h X w).2 dbY rowsY stY hY
    have hall : allFail h d ([X] ++ [Y]) w = true := by
      simp only [List.singleton_append, allFail, Bool.and_true, Bool.and_eq_true]
      rw [hwY, hwX]
      exact ⟨rfl, rfl⟩
    rw [open_exhausted h d connStr [X] Y w hsplit hall]
    simp only [runAll]
    rw [hwY]
    rfl

/-- C5 at the test double: `ro` answers `on`, `upper` answers `ON`, and `ro,ro` is all
read-only. -/
theorem C5_readonly_indicator_witness :
    (stubDriver.tryOpen pqHost "ro" w0).1 = (none, some { msg := "database in readonly mode" }) ∧
    (stubDriver.tryOpen pqHost "upper" w0).1 = (some "live:upper", none) ∧
    (stubDriver.tryOpen pqHost "blank" w0).1 = (some "live:blank", none) ∧
    (stubDriver.Open pqHost "ro,ro" w0).1 = (none, some { msg := "database in readonly mode" }) :=
  ⟨(((C5_readonly_indicator pqHost stubDriver).1 "ro" w0 "ro" "ro" "on" 4 (by rfl)).1
      (by decide)).1,
    (((C5_readonly_indicator pqHost stubDriver).1 "upper" w0 "upper" "upper" "ON" 4
      (by rfl)).2 (by decide)).1,
    (((C5_readonly_indicator pqHost stubDriver).1 "blank" w0 "blank" "blank" "" 4
      (by rfl)).2 (by decide)).1,
    (C5_readonly_indicator pqHost stubDriver).2 "ro,ro" "ro" "ro" w0 "ro" "ro" "ro" "ro" 4 10
      (by decide) (by rfl) (by rfl)⟩

/-- C6: when the candidates are `pre ++ ci :: post`, every candidate of `pre` fails, `ci`
yields a row other than `on` and the delegate's `Open` of `ci` returns the error `e`:
`tryOpen` of `ci` returns that error; if `ci` is the last candidate `Driver.Open` returns a
nil connection with `e`; otherwise `Driver.Open` goes on with the probe open of the next
candidate and its result is that of the loop over the remaining candidates, whatever the
error carried into it, so `e` does not reach the caller. -/
theorem C6_live_open_failure_is_per_candidate (h : Host σ D R) (d : Driver σ C)
    (connStr : String) (pre : List String) (ci : String) (post : List String)
    (w : World σ D R) (db : D) (rows : R) (v : String) (st4 : σ) (con : Option C)
    (e : GoError)
    (hsplit : stringsSplit connStr ',' = pre ++ ci :: post)
    (hpre : allFail h d pre w = true)
    (hprobe : probe h ci (runAll h d pre w).st = .row db rows v st4)
    (hv : v ≠ "on")
    (hlive : (d.delegate.Open ci (h.dbClose db st4)).1 = (con, some e)) :
    (d.tryOpen h ci (runAll h d pre w)).1 = (con, some e) ∧
    (post = [] → (d.Open h connStr w).1 = (none, some e)) ∧
    (∀ (next : String) (rest : List String), post = next :: rest →
      (∀ err : Option GoError,
        d.Open h connStr w = d.openLoop h (next :: rest) err (runAll h d (pre ++ [ci]) w)) ∧
      (emitted (runAll h d (pre ++ [ci]) w) (d.Open h connStr w).2).head? =
        some { cand := next, op := .sqlOpen "postgres" next }) := by
  have hw := tryOpen_writable h d ci (runAll h d pre w) db rows v st4 hprobe hv
  have hres : (d.tryOpen h ci (runAll h d pre w)).1 = (con, some e) := by rw [hw, hlive]
  have hci : (d.tryOpen h ci (runAll h d pre w)).1.2 = some e := by rw [hres]
  have hrun : runAll h d (pre ++ [ci]) w = (d.tryOpen h ci (runAll h d pre w)).2 := by
    rw [runAll_append]
    rfl
  have hopen : d.Open h connStr w = d.openLoop h post (some e) (runAll h d (pre ++ [ci]) w) := by
    unfold Driver.Open
    rw [hsplit, openLoop_append_cons h d pre ci post w none none hpre,
      openLoop_cons_fail h d ci post none _ e hci, hrun]
  refine ⟨hres, ?_, ?_⟩
  · intro hpost
    rw [hopen, hpost]
    rfl
  · intro next rest hpost
    rw [hopen, hpost]
    exact ⟨fun err => openLoop_cons_err h d next rest (some e) err _,
      openLoop_cons_head h d next rest (some e) _⟩

/-- C6 at the test double: the live-open error of `nolive` is returned when `nolive` is
last, and is not when the read-only `ro` follows it. -/
theorem C6_live_open_failure_is_per_candidate_witness :
    (stubDriver.Open pqHost "down,nolive" w0).1 = (none, some { msg := "live open refused" }) ∧
    (emitted (runAll pqHost stubDriver (["down"] ++ ["nolive"]) w0)
        (stubDriver.Open pqHost "down,nolive,ro" w0).2).head? =
      some { cand := "ro", op := .sqlOpen "postgres" "ro" } ∧
    (stubDriver.Open pqHost "down,nolive,ro" w0).1 =
      (none, some { msg := "database in readonly mode" }) :=
  ⟨(C6_live_open_failure_is_per_candidate pqHost stubDriver "down,nolive" ["down"] "nolive" []
      w0 "nolive" "nolive" "off" 5 none { msg := "live open refused" }
      (by decide) (by decide) (by rfl) (by decide) (by rfl)).2.1 rfl,
    ((C6_live_open_failure_is_per_candidate pqHost stubDriver "down,nolive,ro" ["down"]
      "nolive" ["ro"] w0 "nolive" "nolive" "off" 5 none { msg := "live open refused" }
      (by decide) (by decide) (by rfl) (by decide) (by rfl)).2.2 "ro" [] rfl).2,
    by decide⟩


/-- C7: the candidates `Driver.Open` iterates are `strings.Split(s, ",")`: the loop runs
over that list; it has one element more than `s` has commas; joining it with commas gives
back `s` (no trimming, no deduplication, empty segments kept, order kept); no element
contains a comma; when every candidate fails the candidates probed are that list; and
`a,b,c`, `a` and the empty string split as stated. -/
theorem C7_candidates_are_comma_split (h : Host σ D R) (d : Driver σ C) (s : String)
    (w : World σ D R) :
    d.Open h s w = d.openLoop h (stringsSplit s ',') none w ∧
    (stringsSplit s ',').length = s.data.count ',' + 1 ∧
    stringsJoin (stringsSplit s ',') ',' = s ∧
    (∀ seg ∈ stringsSplit s ',', ',' ∉ seg.data) ∧
    (allFail h d (stringsSplit s ',') w = true →
      probed (emitted w (d.Open h s w).2) = stringsSplit s ',') ∧
    stringsSplit "a,b,c" ',' = ["a", "b", "c"] ∧
    stringsSplit "a" ',' = ["a"] ∧
    stringsSplit "" ',' = [""] ∧
    stringsSplit " a ,a,,a " ',' = [" a ", "a", "", "a "] := by
  refine ⟨rfl, ?_, ?_, ?_, ?_, by decide, by decide, by decide, by decide⟩
  · simp [stringsSplit, splitChars_length]
  · unfold stringsSplit stringsJoin
    rw [List.map_map]
    have hid : (String.data ∘ String.mk) = id := rfl
    rw [hid, List.map_id, joinChars_splitChars]
  · intro seg hseg
    unfold stringsSplit at hseg
    rcases List.mem_map.mp hseg with ⟨l, hl, rfl⟩
    exact splitChars_not_mem ',' s.data l hl
  · intro hall
    obtain ⟨pre, last, hpl⟩ : ∃ pre last, stringsSplit s ',' = pre ++ [last] := by
      rcases List.eq_nil_or_concat (stringsSplit s ',') with hnil | ⟨pre, last, hpl⟩
      · exact absurd hnil (stringsSplit_ne_nil s ',')
      · exact ⟨pre, last, by simpa using hpl⟩
    rw [hpl] at hall
    rw [open_exhausted h d s pre last w hpl hall, hpl]
    obtain ⟨x, hx, hpx⟩ := runAll_probed h d (pre ++ [last]) w
    rw [emitted_of_trace_eq w _ x hx, hpx]

/-- C7 at the host in which no candidate can be probed, for a connection string with
blanks, a duplicate and an empty segment: each segment is probed as it stands. -/
theorem C7_candidates_are_comma_split_witness :
    allFail bareHost stubDriver (stringsSplit " a ,a,,a " ',') w0 = true ∧
    probed (emitted w0 (stubDriver.Open bareHost " a ,a,,a " w0).2) = [" a ", "a", "", "a "] :=
  ⟨by decide,
    ((C7_candidates_are_comma_split bareHost stubDriver " a ,a,,a " w0).2.2.2.2.1
      (by decide)).trans
      (C7_candidates_are_comma_split bareHost stubDriver " a ,a,,a " w0).2.2.2.2.2.2.2.2⟩

/-- C8, as the code has it: evaluating a candidate issues exactly one probe open; the
number of `db.Close()` calls is none when that open fails, two when the candidate is
writable (one before the delegate's `Open`, one deferred) and one on every other path;
when the probe was opened, every close is on its handle and the last call of the
evaluation is a close of it, so the probe is closed before the evaluation returns. -/
theorem C8_probe_open_and_closes (h : Host σ D R) (d : Driver σ C) (s : String)
    (w : World σ D R) :
    countSqlOpen (emitted w (d.tryOpen h s w).2) = 1 ∧
    countDbClose (emitted w (d.tryOpen h s w).2) = (probe h s w.st).closes ∧
    (∀ db : D, (h.sqlOpen "postgres" s w.st).1 = .ok db →
      1 ≤ (probe h s w.st).closes ∧
      (emitted w (d.tryOpen h s w).2).getLast? = some { cand := s, op := .dbClose db } ∧
      ∀ e ∈ emitted w (d.tryOpen h s w).2, ∀ db1 : D, e.op = .dbClose db1 → db1 = db) ∧
    (∀ err : GoError, (h.sqlOpen "postgres" s w.st).1 = .error err →
      (probe h s w.st).closes = 0) :=
  tryOpen_open_close_counts h d s w

/-- C8 as stated fails at the test double: the writable candidate `rw` has its probe
opened once and closed twice, and the unreachable candidate `down` has no close at all. -/
theorem C8_close_count_counterexample :
    countSqlOpen (emitted w0 (stubDriver.tryOpen pqHost "rw" w0).2) = 1 ∧
    countDbClose (emitted w0 (stubDriver.tryOpen pqHost "rw" w0).2) = 2 ∧
    countDbClose (emitted w0 (stubDriver.tryOpen pqHost "down" w0).2) = 0 := by
  refine ⟨by decide, by decide, by decide⟩

/-- C8 (as the code has it) at the read-only candidate `ro` of the test double: one close,
issued last. -/
theorem C8_probe_open_and_closes_witness :
    countDbClose (emitted w0 (stubDriver.tryOpen pqHost "ro" w0).2) = 1 ∧
    (emitted w0 (stubDriver.tryOpen pqHost "ro" w0).2).getLast? =
      some { cand := "ro", op := .dbClose "ro" } :=
  ⟨(C8_probe_open_and_closes pqHost stubDriver "ro" w0).2.1,
    ((C8_probe_open_and_closes pqHost stubDriver "ro" w0).2.2.1 "ro" (by rfl)).2.1⟩

/-- C9 as stated fails at the host in which `InitDriver` has registered the wrapper and
nothing is registered as `postgres`: the delegate opens `rw` when asked, but the probe is
the one call `sql.Open("postgres", "rw")`, it fails, and the delegate is never called. -/
theorem C9_probe_not_via_delegate_counterexample :
    (InitDriver stubDelegate).1 = "postgres-with-failover" ∧
    (stubDelegate.Open "rw" w0.st).1 = (some "live:rw", none) ∧
    emitted w0 ((InitDriver stubDelegate).2.tryOpen bareHost "rw" w0).2 =
      [{ cand := "rw", op := .sqlOpen "postgres" "rw" }] ∧
    ((InitDriver stubDelegate).2.tryOpen bareHost "rw" w0).1 =
      (none, some { msg := "sql: unknown driver" }) := by
  refine ⟨by decide, by decide, by decide, by decide⟩

/-- C9, as the code has it: for every delegate passed to `InitDriver`, the wrapper is
registered as `postgres-with-failover` and holds that delegate; the probe of `tryOpen` is
opened by the one call `sql.Open("postgres", s)`, the first call of the evaluation, through
whatever the host has registered as `postgres`; when that call fails its error is returned
and the delegate is not called.  The delegate's `Open` is called exactly once, for the same
endpoint string and after the probe handle has been closed, when the probe yields a row
other than `on`, and its result is what `tryOpen` returns; on every other path (probe open
failure, query failure, no row, decode failure, read-only) the delegate is not called, no
connection is returned, and the whole evaluation is the same whatever the delegate is. -/
theorem C9_probe_via_registered_postgres (h : Host σ D R) (delegate : DriverIface σ C)
    (s : String) (w : World σ D R) :
    (InitDriver delegate).1 = "postgres-with-failover" ∧
    (InitDriver delegate).2.delegate = delegate ∧
    (emitted w ((InitDriver delegate).2.tryOpen h s w).2).head? =
      some { cand := s, op := .sqlOpen "postgres" s } ∧
    countSqlOpen (emitted w ((InitDriver delegate).2.tryOpen h s w).2) = 1 ∧
    (∀ err : GoError, (h.sqlOpen "postgres" s w.st).1 = .error err →
      ((InitDriver delegate).2.tryOpen h s w).1 = (none, some err) ∧
      countDelegateOpen (emitted w ((InitDriver delegate).2.tryOpen h s w).2) = 0) ∧
    (∀ (db : D) (rows : R) (v : String) (st4 : σ),
      probe h s w.st = .row db rows v st4 → v ≠ "on" →
      ((InitDriver delegate).2.tryOpen h s w).1 = (delegate.Open s (h.dbClose db st4)).1 ∧
      emitted w ((InitDriver delegate).2.tryOpen h s w).2 =
        tagged s [.sqlOpen "postgres" s, .dbQuery db readinessQuery, .rowsNext rows,
          .rowsScan rows, .dbClose db, .delegateOpen s, .rowsClose rows, .dbClose db]) ∧
    countDelegateOpen (emitted w ((InitDriver delegate).2.tryOpen h s w).2) =
      (if (probe h s w.st).writable = true then 1 else 0) ∧
    (∀ e ∈ emitted w ((InitDriver delegate).2.tryOpen h s w).2, ∀ name : String,
      e.op = .delegateOpen name → name = s) ∧
    ((probe h s w.st).writable = false →
      ((InitDriver delegate).2.tryOpen h s w).1.1 = none ∧
      ∀ other : DriverIface σ C,
        (InitDriver other).2.tryOpen h s w = (InitDriver delegate).2.tryOpen h s w) := by
  have hcalls := tryOpen_delegate_calls h (InitDriver delegate).2 s w
  refine ⟨rfl, rfl, ?_, (tryOpen_open_close_counts h _ s w).1, ?_, ?_, hcalls.1, hcalls.2.1,
    fun hnw => ⟨(hcalls.2.2 hnw).1, fun other => (hcalls.2.2 hnw).2 (InitDriver other).2⟩⟩
  · obtain ⟨tl, htl, _⟩ := tryOpen_trace h (InitDriver delegate).2 s w
    rw [emitted_of_trace_eq w _ _ htl]
    rfl
  · intro err herr
    rw [tryOpen_eq_finish]
    have hp : probe h s w.st = .openFailed err (h.sqlOpen "postgres" s w.st).2 := by
      unfold probe
      rw [herr]
    rw [hp]
    refine ⟨rfl, ?_⟩
    rw [emitted_of_trace_eq w _ (tagged s [.sqlOpen "postgres" s]) rfl]
    simp [countDelegateOpen, tagged]
  · intro db rows v st4 hprobe hv
    rw [tryOpen_writable h _ s w db rows v st4 hprobe hv]
    exact ⟨rfl, emitted_mk w _ _⟩

/-- C9 (as the code has it) at the test double with a driver registered as `postgres`:
the unreachable `down`, the writable `rw`, and the candidates `badq`, `empty`, `undec` and
`ro`, for which the delegate is not called and could be any driver. -/
theorem C9_probe_via_registered_postgres_witness :
    ((InitDriver stubDelegate).2.tryOpen pqHost "down" w0).1 =
      (none, some { msg := "connection refused" }) ∧
    ((InitDriver stubDelegate).2.tryOpen pqHost "rw" w0).1 = (some "live:rw", none) ∧
    countDelegateOpen (emitted w0 ((InitDriver stubDelegate).2.tryOpen pqHost "rw" w0).2) = 1 ∧
    countDelegateOpen (emitted w0 ((InitDriver stubDelegate).2.tryOpen pqHost "badq" w0).2) = 0 ∧
    countDelegateOpen (emitted w0 ((InitDriver stubDelegate).2.tryOpen pqHost "empty" w0).2) = 0 ∧
    countDelegateOpen (emitted w0 ((InitDriver stubDelegate).2.tryOpen pqHost "undec" w0).2) = 0 ∧
    ((InitDriver stubDelegate).2.tryOpen pqHost "ro" w0).1.1 = none :=
  ⟨((C9_probe_via_registered_postgres pqHost stubDelegate "down" w0).2.2.2.2.1
      { msg := "connection refused" } (by rfl)).1,
    ((C9_probe_via_registered_postgres pqHost stubDelegate "rw" w0).2.2.2.2.2.1
      "rw" "rw" "off" 4 (by rfl) (by decide)).1,
    (C9_probe_via_registered_postgres pqHost stubDelegate "rw" w0).2.2.2.2.2.2.1,
    (C9_probe_via_registered_postgres pqHost stubDelegate "badq" w0).2.2.2.2.2.2.1,
    (C9_probe_via_registered_postgres pqHost stubDelegate "empty" w0).2.2.2.2.2.2.1,
    (C9_probe_via_registered_postgres pqHost stubDelegate "undec" w0).2.2.2.2.2.2.1,
    ((C9_probe_via_registered_postgres pqHost stubDelegate "ro" w0).2.2.2.2.2.2.2.2
      (by rfl)).1⟩

/-- C10: for every non-empty list `L` of endpoint strings without a comma,
`strings.Split(strings.Join(L, ","), ",")` is `L`, so `Driver.Open` of the joined string
runs its loop over exactly `L`; and there is a list with an endpoint string containing a
comma for which the split of the join differs from the list. -/
theorem C10_join_then_split (L : List String) (hne : L ≠ [])
    (hc : ∀ s ∈ L, ',' ∉ s.data) :
    stringsSplit (stringsJoin L ',') ',' = L ∧
    (∀ (h : Host σ D R) (d : Driver σ C) (w : World σ D R),
      d.Open h (stringsJoin L ',') w = d.openLoop h L none w) ∧
    ∃ L1 : List String, (∃ s ∈ L1, ',' ∈ s.data) ∧
      stringsSplit (stringsJoin L1 ',') ',' ≠ L1 := by
  have hL := stringsSplit_stringsJoin ',' L hne hc
  refine ⟨hL, ?_, ⟨["host=a,port=1", "host=b"], ⟨"host=a,port=1", by decide, by decide⟩,
    by decide⟩⟩
  intro h d w
  unfold Driver.Open
  rw [hL]

/-- C10 at the two connection strings of the package example's shape. -/
theorem C10_join_then_split_witness :
    stringsJoin ["host=m port=5432", "host=s port=5432"] ',' =
      "host=m port=5432,host=s port=5432" ∧
    stringsSplit (stringsJoin ["host=m port=5432", "host=s port=5432"] ',') ',' =
      ["host=m port=5432", "host=s port=5432"] :=
  ⟨by decide,
    (@C10_join_then_split Nat String String String
      ["host=m port=5432", "host=s port=5432"] (by decide) (by decide)).1⟩

end Pgdfailwrap
